import Mathlib

/-!
# Feature factories and brute-force ORB matching (`src/features.cpp`)

A shallow embedding of `features.cpp` of RGBDSLAM:

* `hamming_distance_orb32x8_popcountll` and `bruteForceSearchORB`
  (lines 162-180), over descriptors of four 64-bit words;
* `adjusterWrapper`, `adjustedGridWrapper`, `createDetector` and
  `createDescriptorExtractor` (lines 33-160), over an explicit
  `ParameterServer` value and a small algebra of detector pipelines.

Conventions of the embedding.  A C++ `int` is an `Int`, an `unsigned int` or
`uint64_t` is a `Nat`; wrap-around is written out where the source relies on
it (`size-1` on `unsigned int`, the store of the unsigned loop counter into the
`int` result index).  Executions whose behaviour the C++ standard leaves
undefined (reads past the end of the reference array, signed overflow, a
floating value that does not fit the `int` it is converted to) end in
`Fault.UndefinedBehaviour`; a failed `assert` ends in `Fault.AssertionFailed`.
-/

namespace Features

/-! ## Outcomes -/

/-- Ways in which a call can end without a result: a failed `assert`, or an
execution whose behaviour is undefined. -/
inductive Fault where
  | AssertionFailed
  | UndefinedBehaviour
  deriving DecidableEq, Repr

/-- Decidable equality of outcomes, by comparing constructors and payloads. -/
instance instDecidableEqExcept {ε α : Type} [DecidableEq ε] [DecidableEq α] :
    DecidableEq (Except ε α)
  | .ok a, .ok b =>
    if h : a = b then isTrue (congrArg Except.ok h)
    else isFalse (fun h' => h (Except.ok.inj h'))
  | .error a, .error b =>
    if h : a = b then isTrue (congrArg Except.error h)
    else isFalse (fun h' => h (Except.error.inj h'))
  | .ok _, .error _ => isFalse (fun h => Except.noConfusion h)
  | .error _, .ok _ => isFalse (fun h => Except.noConfusion h)

/-! ## Binary descriptors and the Hamming distance -/

/-- A 256-bit ORB descriptor: the four `uint64_t` words `v[0] .. v[3]`. -/
structure Desc where
  w0 : Nat
  w1 : Nat
  w2 : Nat
  w3 : Nat
  deriving DecidableEq, Repr

/-- The words of a descriptor are 64-bit values. -/
def Desc.valid (d : Desc) : Prop :=
  d.w0 < 2 ^ 64 ∧ d.w1 < 2 ^ 64 ∧ d.w2 < 2 ^ 64 ∧ d.w3 < 2 ^ 64

instance (d : Desc) : Decidable d.valid :=
  inferInstanceAs (Decidable (d.w0 < 2 ^ 64 ∧ d.w1 < 2 ^ 64 ∧ d.w2 < 2 ^ 64 ∧ d.w3 < 2 ^ 64))

/-- The builtin `__builtin_popcountll`: the number of one bits among the 64
bits of an `unsigned long long`, returned as an `int`. -/
def popcountll (x : Nat) : Int :=
  (((List.range 64).filter (fun i => x.testBit i)).length : Nat)

/-- Lines 162-165: sum of the population counts of the four word-wise XORs. -/
def hamming_distance_orb32x8_popcountll (v1 v2 : Desc) : Int :=
  (popcountll (v1.w0 ^^^ v2.w0) + popcountll (v1.w1 ^^^ v2.w1)) +
  (popcountll (v1.w2 ^^^ v2.w2) + popcountll (v1.w3 ^^^ v2.w3))

/-! ## Brute-force search -/

/-- Conversion of an `unsigned int` value to `int` (two-complement
wrap-around), as performed by `result_index = i`. -/
def toInt32 (n : Nat) : Int :=
  if n % 4294967296 < 2147483648 then ((n % 4294967296 : Nat) : Int)
  else ((n % 4294967296 : Nat) : Int) - 4294967296

/-- The `for` loop of lines 172-178.  The first argument is the number of
iterations still to run (`size-1` minus the counter), the second the counter
`i`, the third the memory from the moving pointer `search_array` onwards (one
list element per descriptor, so that `search_array+=4` is the tail), then the
running `min_distance` and `result_index`.  Reading a descriptor where the
memory has ended is undefined behaviour. -/
def scanLoop (v : Desc) : Nat → Nat → List Desc → Int → Int → Except Fault (Int × Int)
  | 0, _, _, min_distance, result_index => .ok (min_distance, result_index)
  | _ + 1, _, [], _, _ => .error .UndefinedBehaviour
  | n + 1, i, d :: rest, min_distance, result_index =>
    let hamming_distance_i := hamming_distance_orb32x8_popcountll v d
    if hamming_distance_i < min_distance then
      scanLoop v n (i + 1) rest hamming_distance_i (toInt32 i)
    else
      scanLoop v n (i + 1) rest min_distance result_index

/-- The loop bound `size-1` of line 172, computed on `unsigned int`, that is
modulo `2^32`: it is `2^32 - 1` for `size = 0`. -/
def sizeMinusOne (size : Nat) : Nat :=
  (size % 4294967296 + 4294967296 - 1) % 4294967296

/-- Lines 167-180.  `search_array` is `none` for a null pointer and otherwise
the descriptors stored from the pointer onwards; `size` is the `unsigned int`
count.  The result is the pair (returned `min_distance`, `result_index`).  The
counter `i` stays below the loop bound, so `i+=1` never wraps. -/
def bruteForceSearchORB (v : Desc) (search_array : Option (List Desc)) (size : Nat) :
    Except Fault (Int × Int) :=
  match search_array with
  | none => .error .AssertionFailed
  | some mem => scanLoop v (sizeMinusOne size) 0 mem (1 + 256) (-1)

/-! ## Single-precision arithmetic of `adjustedGridWrapper`

The two quotients of lines 51-52 are computed in `float` (IEEE binary32,
round to nearest, ties to even).  A finite positive `float` value is
represented exactly, as a mantissa `m` and a binary scale `s` standing for
`m / 2^s`.  The exponent range of binary32 is not modelled: quotients of two
non-zero `int` values lie between `2^-31` and `2^31`, far inside it. -/

/-- Worker of `bitLength`, with the recursion depth as first argument. -/
def bitLengthAux : Nat → Nat → Nat
  | 0, _ => 0
  | fuel + 1, n => if n = 0 then 0 else bitLengthAux fuel (n / 2) + 1

/-- Number of binary digits of `n`: the least `k` with `n < 2^k`. -/
def bitLength (n : Nat) : Nat := bitLengthAux n n

/-- The integer nearest to `n / d`, ties to the even integer. -/
def roundNearestEven (n d : Nat) : Nat :=
  if 2 * (n % d) < d then n / d
  else if d < 2 * (n % d) then n / d + 1
  else if (n / d) % 2 = 0 then n / d
  else n / d + 1

/-- Conversion of a non-negative `int` to `float`: the value is kept when it
has at most 24 binary digits and otherwise rounded to 24 significant digits. -/
def intToFloat (n : Nat) : Nat :=
  if bitLength n ≤ 24 then n
  else roundNearestEven n (2 ^ (bitLength n - 24)) * 2 ^ (bitLength n - 24)

/-- Quotient `a / c` of two positive integer-valued `float`s, rounded to
`float`.  The result `(m, s)` stands for `m / 2^s`; the scale `s` is chosen so
that the exact quotient times `2^s` lies in `[2^23, 2^24)`. -/
def floatDiv (a c : Nat) : Nat × Int :=
  let s : Int := 23 - ((bitLength a : Int) - (bitLength c : Int)) +
    (if a * 2 ^ bitLength c < c * 2 ^ bitLength a then 1 else 0)
  if 0 ≤ s then (roundNearestEven (a * 2 ^ s.toNat) c, s)
  else (roundNearestEven a (c * 2 ^ (-s).toNat), s)

/-- The function `round` of the C library on the non-negative value
`m / 2^s`: nearest integer, halves away from zero. -/
def roundHalfAway (m : Nat) (s : Int) : Nat :=
  if 0 ≤ s then (2 * m + 2 ^ s.toNat) / (2 * 2 ^ s.toNat)
  else m * 2 ^ (-s).toNat

/-- The values of the C++ type `int`. -/
def inIntRange (x : Int) : Prop := -2147483648 ≤ x ∧ x ≤ 2147483647

instance (x : Int) : Decidable (inIntRange x) :=
  inferInstanceAs (Decidable (-2147483648 ≤ x ∧ x ≤ 2147483647))

/-- Store a mathematical value into an `int`; a value out of range is
undefined behaviour (signed overflow, or a floating value that does not fit). -/
def checkedInt (x : Int) : Except Fault Int :=
  if inIntRange x then .ok x else .error .UndefinedBehaviour

/-- The expression `round(a / static_cast<float>(c))` stored into an `int`
(lines 51-52), for `int` values `a` and `c`.  A zero divisor gives an infinity
or a NaN, whose conversion to `int` is undefined. -/
def roundedFloatQuotient (a c : Int) : Except Fault Int :=
  if c = 0 then .error .UndefinedBehaviour
  else if a = 0 then .ok 0
  else
    let q := floatDiv (intToFloat a.natAbs) (intToFloat c.natAbs)
    checkedInt (a.sign * c.sign * (roundHalfAway q.1 q.2 : Nat))

/-- The expression `min * 1.5` stored into an `int` (lines 47 and 97): the
product is exact in `double`, the conversion truncates toward zero. -/
def timesOneAndAHalf (min : Int) : Except Fault Int :=
  checkedInt (if 0 ≤ min then (3 * min) / 2 else -((3 * (-min)) / 2))

/-! ## Detector pipelines and the two factories -/

/-- The three parameters that `features.cpp` reads from the parameter server. -/
structure ParameterServer where
  max_keypoints : Int
  detector_grid_resolution : Int
  adjuster_max_iterations : Int
  deriving DecidableEq, Repr

/-- Configurations in which the arithmetic of the factories is exact: the
keypoint budget is positive and below `2^22`, the grid resolution is at least
1 and below `2^12`.  Then `1.5 * max_keypoints` and the number of grid cells
have at most 24 binary digits, no `int` overflows, and the two `float`
quotients of `adjustedGridWrapper` round like the exact quotients. -/
def ParameterServer.inExactRange (p : ParameterServer) : Prop :=
  0 < p.max_keypoints ∧ p.max_keypoints < 2 ^ 22 ∧
  1 ≤ p.detector_grid_resolution ∧ p.detector_grid_resolution < 2 ^ 12

instance (p : ParameterServer) : Decidable p.inExactRange :=
  inferInstanceAs (Decidable (0 < p.max_keypoints ∧ p.max_keypoints < 2 ^ 22 ∧
    1 ≤ p.detector_grid_resolution ∧ p.detector_grid_resolution < 2 ^ 12))

/-- A decimal literal of the source: `digits / 10^scale` (`0.04` is `⟨4, 2⟩`). -/
structure Decimal where
  digits : Nat
  scale : Nat
  deriving DecidableEq, Repr

/-- A `DetectorAdjuster` object, identified by the arguments of its
constructor call: the detector name and the numeric arguments that follow. -/
structure DetectorAdjuster where
  detector_name : String
  thresholds : List Decimal
  deriving DecidableEq, Repr

/-- The feature detectors that `createDetector` can return. -/
inductive Pipeline where
  /-- A bare `DetectorAdjuster`. -/
  | plain (detAdj : DetectorAdjuster)
  /-- The object `VideoDynamicAdaptedFeatureDetector(detadj, min, max, iterations)`. -/
  | adjusted (detadj : DetectorAdjuster) (min max iterations : Int)
  /-- The object `VideoGridAdaptedFeatureDetector(detector, maxTotalKeypoints, rows, cols)`. -/
  | grid (detector : Pipeline) (maxTotalKeypoints gridRows gridCols : Int)
  deriving DecidableEq, Repr

/-- Shapes of pipelines: the four shapes named by the specification, and a
grid whose cells are grids again (which no factory builds). -/
inductive PipelineKind where
  | plainDetector
  | adjusterWrapped
  | gridOfAdjusters
  | gridOfPlainDetectors
  | nestedGrid
  deriving DecidableEq, Repr

/-- Shape of a pipeline. -/
def Pipeline.kind : Pipeline → PipelineKind
  | .plain _ => .plainDetector
  | .adjusted _ _ _ _ => .adjusterWrapped
  | .grid (.adjusted _ _ _ _) _ _ _ => .gridOfAdjusters
  | .grid (.plain _) _ _ _ => .gridOfPlainDetectors
  | .grid (.grid _ _ _ _) _ _ _ => .nestedGrid

/-- Lines 33-38: the iteration ceiling comes from the parameter server. -/
def adjusterWrapper (params : ParameterServer) (detadj : DetectorAdjuster) (min max : Int) :
    Pipeline :=
  let iterations := params.adjuster_max_iterations
  .adjusted detadj min max iterations

/-- Lines 40-58. -/
def adjustedGridWrapper (params : ParameterServer) (detadj : DetectorAdjuster) :
    Except Fault Pipeline := do
  let min := params.max_keypoints
  let max ← timesOneAndAHalf min
  let gridRes := params.detector_grid_resolution
  let gridcells ← checkedInt (gridRes * gridRes)
  let gridmin ← roundedFloatQuotient min gridcells
  let gridmax ← roundedFloatQuotient max gridcells
  let detector := adjusterWrapper params detadj gridmin gridmax
  return .grid detector max gridRes gridRes

/-- Lines 85-101 of `createDetector`: the assertion on `detAdj` (`none` is the
null pointer) and the choice of the wrapping. -/
def createDetector_wrap (params : ParameterServer) (detAdj : Option DetectorAdjuster) :
    Except Fault Pipeline :=
  match detAdj with
  | none => .error .AssertionFailed
  | some detAdj =>
    let gridWrap : Bool := decide (params.detector_grid_resolution > 1)
    let dynaWrap : Bool := decide (params.adjuster_max_iterations > 0)
    if dynaWrap && gridWrap then
      adjustedGridWrapper params detAdj
    else if dynaWrap then do
      let min := params.max_keypoints
      let max ← timesOneAndAHalf min
      return adjusterWrapper params detAdj min max
    else
      return .plain detAdj

/-- Lines 61-102.  The recursive call of the fallback branch is a call on a
recognised name, which is the termination argument. -/
def createDetector (params : ParameterServer) (detectorName : String) :
    Except Fault Pipeline :=
  if detectorName = "SIFTGPU" then
    .ok (.plain ⟨"SIFT", [⟨4, 2⟩, ⟨1, 4⟩]⟩)
  else if detectorName = "FAST" then
    createDetector_wrap params (some ⟨"FAST", [⟨20, 0⟩]⟩)
  else if _hSURF : detectorName = "SURF" ∨ detectorName = "SURF128" then
    createDetector_wrap params (some ⟨"SURF", [⟨200, 0⟩]⟩)
  else if detectorName = "SIFT" then
    createDetector_wrap params (some ⟨"SIFT", [⟨4, 2⟩, ⟨1, 4⟩]⟩)
  else if detectorName = "ORB" then
    createDetector_wrap params (some ⟨"AORB", [⟨20, 0⟩]⟩)
  else
    createDetector params "SURF"
termination_by (if detectorName = "SURF" then 0 else 1)
decreasing_by
  simp_all

/-- The descriptor extractors that `createDescriptorExtractor` constructs.
`Surf true` is the SURF extractor with the `extended` flag set. -/
inductive Extractor where
  | Sift
  | Brief
  | Brisk
  | Freak
  | Surf (extended : Bool)
  | Orb
  deriving DecidableEq, Repr

/-- Line 158: the assertion that the smart pointer is not empty (`none`). -/
def assertNotEmpty (extractor : Option Extractor) : Except Fault Extractor :=
  match extractor with
  | none => .error .AssertionFailed
  | some e => .ok e

/-- Lines 104-160.  Both branches of the preprocessor conditionals construct
the same kind of extractor. -/
def createDescriptorExtractor (descriptorType : String) : Except Fault Extractor :=
  if descriptorType = "SIFT" then assertNotEmpty (some .Sift)
  else if descriptorType = "BRIEF" then assertNotEmpty (some .Brief)
  else if descriptorType = "BRISK" then assertNotEmpty (some .Brisk)
  else if descriptorType = "FREAK" then assertNotEmpty (some .Freak)
  else if _hSURF : descriptorType = "SURF" then assertNotEmpty (some (.Surf false))
  else if descriptorType = "SURF128" then assertNotEmpty (some (.Surf true))
  else if descriptorType = "ORB" then assertNotEmpty (some .Orb)
  else if descriptorType = "SIFTGPU" then do
    let extractor ← createDescriptorExtractor "SURF"
    assertNotEmpty (some extractor)
  else do
    let extractor ← createDescriptorExtractor "SURF"
    assertNotEmpty (some extractor)
termination_by (if descriptorType = "SURF" then 0 else 1)
decreasing_by
  all_goals simp_all

/-! ## The merge step of the grid adapter -/

/-- A keypoint, reduced to its pixel position and its response strength; the
merge step uses nothing but the order of the responses. -/
structure KeyPoint where
  x : Int
  y : Int
  response : Int
  deriving DecidableEq, Repr

/-- The keypoints that the detector of one grid cell reports, in the
coordinates of the cell, with the position of the cell in the image. -/
structure CellOutput where
  originX : Int
  originY : Int
  keypoints : List KeyPoint
  deriving DecidableEq, Repr

/-- Modelled from the spec: the merge step of the grid adapter (class
`VideoGridAdaptedFeatureDetector`, which is not among the sources).  The
keypoint sequences of the cells are translated to image coordinates and
concatenated; if the combined count exceeds the configured maximum, the
lowest-response keypoints are discarded until exactly that many remain. -/
def mergeAndCap (maxTotalKeypoints : Int) (cells : List CellOutput) : List KeyPoint :=
  let merged := (cells.map (fun c =>
    c.keypoints.map (fun k => { k with x := k.x + c.originX, y := k.y + c.originY }))).flatten
  if maxTotalKeypoints < (merged.length : Int) then
    (merged.insertionSort (fun a b => a.response ≥ b.response)).take maxTotalKeypoints.toNat
  else
    merged

/-! ## Theorems: Hamming distance -/

theorem popcountll_nonneg (x : Nat) : 0 ≤ popcountll x := by
  unfold popcountll; exact Int.natCast_nonneg _

theorem popcountll_le (x : Nat) : popcountll x ≤ 64 := by
  unfold popcountll
  have h := List.length_filter_le (fun i => x.testBit i) (List.range 64)
  simp only [List.length_range] at h
  exact_mod_cast h

theorem popcountll_eq_zero_iff (x : Nat) (hx : x < 2 ^ 64) : popcountll x = 0 ↔ x = 0 := by
  unfold popcountll
  constructor
  · intro h
    have h0 : (List.range 64).filter (fun i => x.testBit i) = [] := by
      apply List.eq_nil_of_length_eq_zero
      exact_mod_cast h
    apply Nat.eq_of_testBit_eq
    intro i
    rw [Nat.zero_testBit]
    by_cases hi : i < 64
    · by_contra hne
      have hmem : i ∈ (List.range 64).filter (fun i => x.testBit i) := by
        rw [List.mem_filter]
        exact ⟨List.mem_range.mpr hi, by simpa using hne⟩
      rw [h0] at hmem
      exact List.not_mem_nil _ hmem
    · apply Nat.testBit_lt_two_pow
      calc x < 2 ^ 64 := hx
        _ ≤ 2 ^ i := Nat.pow_le_pow_right (by decide) (by omega)
  · intro h
    subst h
    simp

theorem hamming_nonneg (a b : Desc) : 0 ≤ hamming_distance_orb32x8_popcountll a b := by
  unfold hamming_distance_orb32x8_popcountll
  have h0 := popcountll_nonneg (a.w0 ^^^ b.w0)
  have h1 := popcountll_nonneg (a.w1 ^^^ b.w1)
  have h2 := popcountll_nonneg (a.w2 ^^^ b.w2)
  have h3 := popcountll_nonneg (a.w3 ^^^ b.w3)
  omega

theorem hamming_le (a b : Desc) : hamming_distance_orb32x8_popcountll a b ≤ 256 := by
  unfold hamming_distance_orb32x8_popcountll
  have h0 := popcountll_le (a.w0 ^^^ b.w0)
  have h1 := popcountll_le (a.w1 ^^^ b.w1)
  have h2 := popcountll_le (a.w2 ^^^ b.w2)
  have h3 := popcountll_le (a.w3 ^^^ b.w3)
  omega

theorem hamming_comm (a b : Desc) :
    hamming_distance_orb32x8_popcountll a b = hamming_distance_orb32x8_popcountll b a := by
  unfold hamming_distance_orb32x8_popcountll
  rw [Nat.xor_comm a.w0, Nat.xor_comm a.w1, Nat.xor_comm a.w2, Nat.xor_comm a.w3]

theorem hamming_eq_zero_iff (a b : Desc) (ha : a.valid) (hb : b.valid) :
    hamming_distance_orb32x8_popcountll a b = 0 ↔ a = b := by
  obtain ⟨a0, a1, a2, a3⟩ := a
  obtain ⟨b0, b1, b2, b3⟩ := b
  obtain ⟨ha0, ha1, ha2, ha3⟩ := ha
  obtain ⟨hb0, hb1, hb2, hb3⟩ := hb
  simp only at ha0 ha1 ha2 ha3 hb0 hb1 hb2 hb3
  unfold hamming_distance_orb32x8_popcountll
  simp only
  have n0 := popcountll_nonneg (a0 ^^^ b0)
  have n1 := popcountll_nonneg (a1 ^^^ b1)
  have n2 := popcountll_nonneg (a2 ^^^ b2)
  have n3 := popcountll_nonneg (a3 ^^^ b3)
  have z0 := popcountll_eq_zero_iff (a0 ^^^ b0) (Nat.xor_lt_two_pow ha0 hb0)
  have z1 := popcountll_eq_zero_iff (a1 ^^^ b1) (Nat.xor_lt_two_pow ha1 hb1)
  have z2 := popcountll_eq_zero_iff (a2 ^^^ b2) (Nat.xor_lt_two_pow ha2 hb2)
  have z3 := popcountll_eq_zero_iff (a3 ^^^ b3) (Nat.xor_lt_two_pow ha3 hb3)
  rw [Nat.xor_eq_zero] at z0 z1 z2 z3
  constructor
  · intro h
    have e0 : a0 = b0 := z0.mp (by omega)
    have e1 : a1 = b1 := z1.mp (by omega)
    have e2 : a2 = b2 := z2.mp (by omega)
    have e3 : a3 = b3 := z3.mp (by omega)
    subst e0 e1 e2 e3
    rfl
  · intro h
    injection h with e0 e1 e2 e3
    have p0 := z0.mpr e0
    have p1 := z1.mpr e1
    have p2 := z2.mpr e2
    have p3 := z3.mpr e3
    omega

/-- C4: the Hamming distance of two 256-bit descriptors is symmetric, is zero
exactly when the two bit patterns coincide, and lies in `[0, 256]`. -/
theorem hamming_distance_metric_properties (a b : Desc) (ha : a.valid) (hb : b.valid) :
    hamming_distance_orb32x8_popcountll a b = hamming_distance_orb32x8_popcountll b a ∧
    (hamming_distance_orb32x8_popcountll a b = 0 ↔ a = b) ∧
    0 ≤ hamming_distance_orb32x8_popcountll a b ∧
    hamming_distance_orb32x8_popcountll a b ≤ 256 :=
  ⟨hamming_comm a b, hamming_eq_zero_iff a b ha hb, hamming_nonneg a b, hamming_le a b⟩

/-! ## Theorems: the scan loop -/

theorem scanLoop_length_of_ok (v : Desc) :
    ∀ (n i : Nat) (mem : List Desc) (md ri : Int) (r : Int × Int),
      scanLoop v n i mem md ri = .ok r → n ≤ mem.length := by
  intro n
  induction n with
  | zero => intro i mem md ri r _; exact Nat.zero_le _
  | succ n ih =>
    intro i mem md ri r h
    cases mem with
    | nil => simp [scanLoop] at h
    | cons d rest =>
      simp only [scanLoop] at h
      simp only [List.length_cons]
      split at h
      · exact Nat.succ_le_succ (ih _ _ _ _ _ h)
      · exact Nat.succ_le_succ (ih _ _ _ _ _ h)

/-- Functional description of the loop on a memory that holds at least the
`n` descriptors it reads: the result is a lower bound of the initial minimum
and of all `n` distances; either nothing was replaced, or the result index is
the (converted) position of the first descriptor that attains the result. -/
theorem scanLoop_spec (v : Desc) :
    ∀ (n i : Nat) (mem : List Desc) (md ri : Int), n ≤ mem.length →
      ∃ md' ri', scanLoop v n i mem md ri = .ok (md', ri') ∧ md' ≤ md ∧
        (∀ j, j < n → ∀ d, mem[j]? = some d →
          md' ≤ hamming_distance_orb32x8_popcountll v d) ∧
        ((md' = md ∧ ri' = ri) ∨
         (md' < md ∧ ∃ k, k < n ∧
            (∃ d, mem[k]? = some d ∧ hamming_distance_orb32x8_popcountll v d = md') ∧
            ri' = toInt32 (i + k) ∧
            ∀ j, j < k → ∀ d, mem[j]? = some d →
              md' < hamming_distance_orb32x8_popcountll v d)) := by
  intro n
  induction n with
  | zero =>
    intro i mem md ri _
    exact ⟨md, ri, rfl, le_refl _, fun j hj => absurd hj (Nat.not_lt_zero j), Or.inl ⟨rfl, rfl⟩⟩
  | succ n ih =>
    intro i mem md ri hlen
    cases mem with
    | nil => simp at hlen
    | cons d0 rest =>
      have hlen' : n ≤ rest.length := by simpa using hlen
      simp only [scanLoop]
      by_cases hlt : hamming_distance_orb32x8_popcountll v d0 < md
      · rw [if_pos hlt]
        obtain ⟨md', ri', heq, hle, hall, hcase⟩ :=
          ih (i + 1) rest (hamming_distance_orb32x8_popcountll v d0) (toInt32 i) hlen'
        refine ⟨md', ri', heq, by omega, ?_, Or.inr ⟨by omega, ?_⟩⟩
        · intro j hj d hd
          cases j with
          | zero =>
            simp only [List.getElem?_cons_zero, Option.some.injEq] at hd
            subst hd; exact hle
          | succ j =>
            simp only [List.getElem?_cons_succ] at hd
            exact hall j (by omega) d hd
        · rcases hcase with ⟨h1, h2⟩ | ⟨h1, k, hk, ⟨d, hd, hdv⟩, hri, hbefore⟩
          · refine ⟨0, by omega, ⟨d0, by simp, h1.symm⟩, by simpa using h2, ?_⟩
            intro j hj; omega
          · refine ⟨k + 1, by omega, ⟨d, by simpa using hd, hdv⟩, ?_, ?_⟩
            · rw [hri]; congr 1; omega
            · intro j hj d' hd'
              cases j with
              | zero =>
                simp only [List.getElem?_cons_zero, Option.some.injEq] at hd'
                subst hd'; exact h1
              | succ j =>
                simp only [List.getElem?_cons_succ] at hd'
                exact hbefore j (by omega) d' hd'
      · rw [if_neg hlt]
        obtain ⟨md', ri', heq, hle, hall, hcase⟩ := ih (i + 1) rest md ri hlen'
        refine ⟨md', ri', heq, hle, ?_, ?_⟩
        · intro j hj d hd
          cases j with
          | zero =>
            simp only [List.getElem?_cons_zero, Option.some.injEq] at hd
            subst hd; omega
          | succ j =>
            simp only [List.getElem?_cons_succ] at hd
            exact hall j (by omega) d hd
        · rcases hcase with h | ⟨h1, k, hk, ⟨d, hd, hdv⟩, hri, hbefore⟩
          · exact Or.inl h
          · refine Or.inr ⟨h1, k + 1, by omega, ⟨d, by simpa using hd, hdv⟩, ?_, ?_⟩
            · rw [hri]; congr 1; omega
            · intro j hj d' hd'
              cases j with
              | zero =>
                simp only [List.getElem?_cons_zero, Option.some.injEq] at hd'
                subst hd'; omega
              | succ j =>
                simp only [List.getElem?_cons_succ] at hd'
                exact hbefore j (by omega) d' hd'

/-- The loop only looks at the first `n` descriptors of the memory. -/
theorem scanLoop_append_irrelevant (v : Desc) :
    ∀ (n i : Nat) (init rest rest' : List Desc) (md ri : Int), n ≤ init.length →
      scanLoop v n i (init ++ rest) md ri = scanLoop v n i (init ++ rest') md ri := by
  intro n
  induction n with
  | zero => intro i init rest rest' md ri _; rfl
  | succ n ih =>
    intro i init rest rest' md ri hlen
    cases init with
    | nil => simp at hlen
    | cons d0 init =>
      have hlen' : n ≤ init.length := by simpa using hlen
      simp only [List.cons_append, scanLoop]
      split
      · exact ih _ _ _ _ _ _ hlen'
      · exact ih _ _ _ _ _ _ hlen'

theorem toInt32_of_lt (k : Nat) (hk : k < 2147483648) : toInt32 k = (k : Int) := by
  unfold toInt32
  have h : k % 4294967296 = k := Nat.mod_eq_of_lt (by omega)
  rw [h, if_pos hk]

theorem toInt32_nonneg_imp (k : Nat) (hk : k < 4294967296) (h0 : 0 ≤ toInt32 k) :
    k < 2147483648 := by
  unfold toInt32 at h0
  have h : k % 4294967296 = k := Nat.mod_eq_of_lt hk
  rw [h] at h0
  split at h0
  · assumption
  · omega

theorem sizeMinusOne_eq (size : Nat) (h1 : 1 ≤ size) (h2 : size < 4294967296) :
    sizeMinusOne size = size - 1 := by
  unfold sizeMinusOne
  omega

theorem sizeMinusOne_lt (size : Nat) : sizeMinusOne size < 4294967296 := by
  unfold sizeMinusOne
  omega

theorem toInt32_of_ge (k : Nat) (hk : 2147483648 ≤ k) (hk32 : k < 4294967296) :
    toInt32 k = (k : Int) - 4294967296 := by
  unfold toInt32
  have h : k % 4294967296 = k := Nat.mod_eq_of_lt hk32
  rw [h, if_neg (by omega)]

theorem toInt32_ne_neg_one (k : Nat) (hk : k < 4294967295) : toInt32 k ≠ -1 := by
  unfold toInt32
  have h : k % 4294967296 = k := Nat.mod_eq_of_lt (by omega)
  rw [h]
  split <;> omega

/-- The loop passes over a run of equal descriptors that do not improve on
the running minimum. -/
theorem scanLoop_replicate_skip (v d : Desc) :
    ∀ (n m i : Nat) (rest : List Desc) (md ri : Int),
      md ≤ hamming_distance_orb32x8_popcountll v d →
      scanLoop v (n + m) i (List.replicate n d ++ rest) md ri =
        scanLoop v m (i + n) rest md ri := by
  intro n
  induction n with
  | zero =>
    intro m i rest md ri _
    simp
  | succ n ih =>
    intro m i rest md ri hmd
    have e : n + 1 + m = (n + m) + 1 := by omega
    rw [e, List.replicate_succ, List.cons_append]
    simp only [scanLoop]
    rw [if_neg (by omega), ih m (i + 1) rest md ri hmd]
    congr 1
    omega

/-- Result on an array that starts with `c ≥ 1` copies of one descriptor,
followed by a strictly closer descriptor and by the last descriptor. -/
theorem bruteForceSearchORB_far_minimum (v far near last : Desc) (c size : Nat)
    (hlt : hamming_distance_orb32x8_popcountll v near <
      hamming_distance_orb32x8_popcountll v far)
    (hc : 1 ≤ c) (hsize : size = c + 2) (hn : size < 4294967296) :
    bruteForceSearchORB v (some (List.replicate c far ++ [near, last])) size =
      .ok (hamming_distance_orb32x8_popcountll v near, toInt32 c) := by
  obtain ⟨n, rfl⟩ : ∃ n, c = n + 1 := ⟨c - 1, by omega⟩
  subst hsize
  unfold bruteForceSearchORB
  simp only
  have hb : sizeMinusOne (n + 1 + 2) = (n + 1) + 1 := by
    rw [sizeMinusOne_eq (n + 1 + 2) (by omega) hn]
    omega
  have hfar := hamming_le v far
  rw [hb, List.replicate_succ, List.cons_append]
  simp only [scanLoop]
  rw [if_pos (by omega),
    scanLoop_replicate_skip v far n 1 (0 + 1) [near, last] _ _ (le_refl _)]
  simp only [scanLoop]
  rw [if_pos hlt]
  have e : 0 + 1 + n = n + 1 := by omega
  rw [e]

/-- Result of a call on an array of `size` descriptors, `1 ≤ size < 2^32`: the
scan covers the `size-1` leading descriptors only, and the result index is the
`int` conversion of the first position that attains the minimum. -/
theorem bruteForceSearchORB_spec (v : Desc) (mem : List Desc) (size : Nat)
    (hlen : mem.length = size) (h1 : 1 ≤ size) (h32 : size < 4294967296) :
    ∃ md ri, bruteForceSearchORB v (some mem) size = .ok (md, ri) ∧ md ≤ 257 ∧
      (∀ j, j < size - 1 → ∀ d, mem[j]? = some d →
        md ≤ hamming_distance_orb32x8_popcountll v d) ∧
      ((md = 257 ∧ ri = -1) ∨
       (md < 257 ∧ ∃ k, k < size - 1 ∧
          (∃ d, mem[k]? = some d ∧ hamming_distance_orb32x8_popcountll v d = md) ∧
          ri = toInt32 k ∧
          ∀ j, j < k → ∀ d, mem[j]? = some d →
            md < hamming_distance_orb32x8_popcountll v d)) := by
  unfold bruteForceSearchORB
  simp only
  rw [sizeMinusOne_eq size h1 h32]
  obtain ⟨md, ri, heq, hle, hall, hcase⟩ :=
    scanLoop_spec v (size - 1) 0 mem (1 + 256) (-1) (by omega)
  refine ⟨md, ri, heq, by omega, hall, ?_⟩
  rcases hcase with ⟨h, h'⟩ | ⟨h, k, hk, hd, hri, hbefore⟩
  · exact Or.inl ⟨by omega, h'⟩
  · refine Or.inr ⟨by omega, k, hk, hd, ?_, hbefore⟩
    rw [hri, Nat.zero_add]

/-- The first loop iteration on a non-empty memory: the distance to the first
descriptor replaces the initial running minimum 257 and index 0 replaces -1. -/
theorem bruteForceSearchORB_first_iteration (v d0 : Desc) (rest : List Desc) (size : Nat)
    (h2 : 2 ≤ size) (h32 : size < 4294967296) :
    bruteForceSearchORB v (some (d0 :: rest)) size =
      scanLoop v (size - 2) 1 rest (hamming_distance_orb32x8_popcountll v d0) 0 := by
  unfold bruteForceSearchORB
  simp only
  have hb : sizeMinusOne size = (size - 2) + 1 := by
    rw [sizeMinusOne_eq size (by omega) h32]
    omega
  have h0 := hamming_le v d0
  rw [hb]
  simp only [scanLoop]
  rw [if_pos (by omega)]
  rfl

/-- C1 (failing input): on the two-element array whose second descriptor equals
the query, the search reports index 0 at distance 1, although index 1 is at
distance 0. -/
theorem bruteForceSearchORB_misses_last_descriptor :
    bruteForceSearchORB ⟨0, 0, 0, 0⟩ (some [⟨1, 0, 0, 0⟩, ⟨0, 0, 0, 0⟩]) 2 = .ok (1, 0) ∧
    hamming_distance_orb32x8_popcountll ⟨0, 0, 0, 0⟩ ⟨0, 0, 0, 0⟩ = 0 ∧
    bruteForceSearchORB ⟨0, 0, 0, 0⟩ (some [⟨0, 0, 0, 0⟩]) 1 = .ok (257, -1) := by
  decide

/-- C2 (counterexample): on an array of `2^31 + 2` descriptors whose first
`2^31` elements are at distance 1 and whose element `2^31` equals the query,
the result index is `-2^31`, not an index in `[0, N-2]`. -/
theorem bruteForceSearchORB_index_wraps_negative :
    (List.replicate 2147483648 (⟨1, 0, 0, 0⟩ : Desc) ++
      [(⟨0, 0, 0, 0⟩ : Desc), ⟨0, 0, 0, 0⟩]).length = 2147483650 ∧
    bruteForceSearchORB ⟨0, 0, 0, 0⟩
      (some (List.replicate 2147483648 ⟨1, 0, 0, 0⟩ ++ [⟨0, 0, 0, 0⟩, ⟨0, 0, 0, 0⟩]))
      2147483650 = .ok (0, -2147483648) := by
  refine ⟨by rw [List.length_append, List.length_replicate]; rfl, ?_⟩
  have h := bruteForceSearchORB_far_minimum ⟨0, 0, 0, 0⟩ ⟨1, 0, 0, 0⟩ ⟨0, 0, 0, 0⟩
    ⟨0, 0, 0, 0⟩ 2147483648 2147483650 (by decide) (by decide) (by decide) (by decide)
  have e1 : hamming_distance_orb32x8_popcountll ⟨0, 0, 0, 0⟩ ⟨0, 0, 0, 0⟩ = 0 := by decide
  have e2 : toInt32 2147483648 = -2147483648 := by decide
  rw [e1, e2] at h
  exact h

/-- C2 (amended): on an array of `N` descriptors, `2 ≤ N < 2^32`, there is an
index `i ≤ N-2` whose distance is minimal among the elements `0 .. N-2`; the
returned value is the distance of element `i`, the result index is the `int`
conversion of `i` (that is `i` itself when `i < 2^31`, hence whenever
`N ≤ 2^31 + 1`, and `i - 2^32` otherwise), and replacing the last descriptor
does not change the result. -/
theorem bruteForceSearchORB_scans_all_but_last (v : Desc) (mem : List Desc) (size : Nat)
    (hlen : mem.length = size) (h2 : 2 ≤ size) (h32 : size < 4294967296) :
    ∃ (md : Int) (i : Nat),
      bruteForceSearchORB v (some mem) size = .ok (md, toInt32 i) ∧ i ≤ size - 2 ∧
      (∃ d, mem[i]? = some d ∧ hamming_distance_orb32x8_popcountll v d = md) ∧
      (∀ j, j ≤ size - 2 → ∀ d, mem[j]? = some d →
        hamming_distance_orb32x8_popcountll v d ≥ md) ∧
      (i < 2147483648 → toInt32 i = (i : Int)) ∧
      (2147483648 ≤ i → toInt32 i = (i : Int) - 4294967296) ∧
      (size ≤ 2147483649 → bruteForceSearchORB v (some mem) size = .ok (md, (i : Int))) ∧
      (∀ last, bruteForceSearchORB v (some (mem.dropLast ++ [last])) size =
        .ok (md, toInt32 i)) := by
  obtain ⟨md, ri, heq, hle, hall, hcase⟩ :=
    bruteForceSearchORB_spec v mem size hlen (by omega) h32
  have hfirst : md ≤ 256 := by
    cases mem with
    | nil => simp at hlen; omega
    | cons d0 rest =>
      have := hall 0 (by omega) d0 (by simp)
      have := hamming_le v d0
      omega
  rcases hcase with ⟨h, _⟩ | ⟨_, k, hk, hd, hri, _⟩
  · omega
  · subst hri
    refine ⟨md, k, heq, by omega, hd, ?_, fun h => toInt32_of_lt k h,
      fun h => toInt32_of_ge k h (by omega), ?_, ?_⟩
    · intro j hj d hdj
      exact hall j (by omega) d hdj
    · intro hs
      rw [heq, toInt32_of_lt k (by omega)]
    · intro last
      have hne : mem ≠ [] := by
        intro h; rw [h] at hlen; simp at hlen; omega
      have hsplit : mem = mem.dropLast ++ [mem.getLast hne] :=
        (List.dropLast_append_getLast hne).symm
      have hdl : sizeMinusOne size ≤ mem.dropLast.length := by
        rw [sizeMinusOne_eq size (by omega) (by omega), List.length_dropLast, hlen]
      rw [← heq]
      conv_rhs => rw [hsplit]
      unfold bruteForceSearchORB
      simp only
      exact scanLoop_append_irrelevant v _ 0 mem.dropLast [last] [mem.getLast hne] _ _ hdl

/-- C2 (witness): an array of three descriptors. -/
theorem bruteForceSearchORB_scans_all_but_last_witness :
    ∃ (md : Int) (i : Nat),
      bruteForceSearchORB ⟨0, 0, 0, 0⟩
        (some [⟨3, 0, 0, 0⟩, ⟨1, 0, 0, 0⟩, ⟨0, 0, 0, 0⟩]) 3 = .ok (md, toInt32 i) ∧
      i ≤ 3 - 2 ∧
      (∃ d, [(⟨3, 0, 0, 0⟩ : Desc), ⟨1, 0, 0, 0⟩, ⟨0, 0, 0, 0⟩][i]? = some d ∧
        hamming_distance_orb32x8_popcountll ⟨0, 0, 0, 0⟩ d = md) ∧
      (∀ j, j ≤ 3 - 2 → ∀ d,
        [(⟨3, 0, 0, 0⟩ : Desc), ⟨1, 0, 0, 0⟩, ⟨0, 0, 0, 0⟩][j]? = some d →
        hamming_distance_orb32x8_popcountll ⟨0, 0, 0, 0⟩ d ≥ md) ∧
      (i < 2147483648 → toInt32 i = (i : Int)) ∧
      (2147483648 ≤ i → toInt32 i = (i : Int) - 4294967296) ∧
      (3 ≤ 2147483649 → bruteForceSearchORB ⟨0, 0, 0, 0⟩
        (some [⟨3, 0, 0, 0⟩, ⟨1, 0, 0, 0⟩, ⟨0, 0, 0, 0⟩]) 3 = .ok (md, (i : Int))) ∧
      (∀ last, bruteForceSearchORB ⟨0, 0, 0, 0⟩
        (some ([(⟨3, 0, 0, 0⟩ : Desc), ⟨1, 0, 0, 0⟩, ⟨0, 0, 0, 0⟩].dropLast ++ [last])) 3 =
        .ok (md, toInt32 i)) :=
  bruteForceSearchORB_scans_all_but_last ⟨0, 0, 0, 0⟩
    [⟨3, 0, 0, 0⟩, ⟨1, 0, 0, 0⟩, ⟨0, 0, 0, 0⟩] 3 (by decide) (by decide) (by decide)

/-- C3 (failing input): with `size = 0` and a non-null pointer the loop bound
`size-1` is `2^32 - 1`; the first iteration compares the query with the
descriptor at the pointer and stores its distance and index 0, the loop goes on
for `2^32 - 2` further iterations and reads past the end of the memory.  The
same happens at once when no descriptor is stored at the pointer. -/
theorem bruteForceSearchORB_size_zero_reads_past_end :
    sizeMinusOne 0 = 4294967295 ∧
    bruteForceSearchORB ⟨0, 0, 0, 0⟩ (some [⟨7, 0, 0, 0⟩]) 0 =
      scanLoop ⟨0, 0, 0, 0⟩ 4294967294 1 []
        (hamming_distance_orb32x8_popcountll ⟨0, 0, 0, 0⟩ ⟨7, 0, 0, 0⟩) 0 ∧
    hamming_distance_orb32x8_popcountll ⟨0, 0, 0, 0⟩ ⟨7, 0, 0, 0⟩ = 3 ∧
    bruteForceSearchORB ⟨0, 0, 0, 0⟩ (some [⟨7, 0, 0, 0⟩]) 0 = .error .UndefinedBehaviour ∧
    bruteForceSearchORB ⟨0, 0, 0, 0⟩ (some []) 0 = .error .UndefinedBehaviour := by
  decide

/-- C5: when the search reports an index `ri ≥ 0`, that index is one of the
scanned ones, the descriptor at `ri` attains the returned distance, no scanned
descriptor is closer to the query, and every descriptor at a lower index is
strictly farther from it. -/
theorem bruteForceSearchORB_first_minimum (v : Desc) (mem : List Desc) (size : Nat)
    (md ri : Int) (hres : bruteForceSearchORB v (some mem) size = .ok (md, ri))
    (hri : 0 ≤ ri) :
    ri < (sizeMinusOne size : Int) ∧
    (∃ d, mem[ri.toNat]? = some d ∧ hamming_distance_orb32x8_popcountll v d = md) ∧
    (∀ j : Nat, j < sizeMinusOne size → ∀ d, mem[j]? = some d →
      md ≤ hamming_distance_orb32x8_popcountll v d) ∧
    ∀ j : Nat, (j : Int) < ri → ∀ d, mem[j]? = some d →
      md < hamming_distance_orb32x8_popcountll v d := by
  unfold bruteForceSearchORB at hres
  simp only at hres
  have hlen := scanLoop_length_of_ok v _ _ _ _ _ _ hres
  have hbound := sizeMinusOne_lt size
  obtain ⟨md', ri', heq, _, hall, hcase⟩ :=
    scanLoop_spec v (sizeMinusOne size) 0 mem (1 + 256) (-1) hlen
  rw [heq] at hres
  simp only [Except.ok.injEq, Prod.mk.injEq] at hres
  obtain ⟨hmd, hri'⟩ := hres
  subst hmd hri'
  rcases hcase with ⟨_, h⟩ | ⟨_, k, hk, hd, hrik, hbefore⟩
  · omega
  · rw [Nat.zero_add] at hrik
    have hk32 : k < 4294967296 := by omega
    have hk31 : k < 2147483648 := toInt32_nonneg_imp k hk32 (by rw [← hrik]; exact hri)
    rw [toInt32_of_lt k hk31] at hrik
    subst hrik
    refine ⟨by omega, by simpa using hd, hall, ?_⟩
    intro j hj d hdj
    exact hbefore j (by omega) d hdj

/-- C5 (witness): the minimum 1 is attained at index 1 and again at index 2. -/
theorem bruteForceSearchORB_first_minimum_witness :
    (1 : Int) < (sizeMinusOne 4 : Int) ∧
    (∃ d, [(⟨3, 0, 0, 0⟩ : Desc), ⟨1, 0, 0, 0⟩, ⟨2, 0, 0, 0⟩, ⟨0, 0, 0, 0⟩][(1 : Int).toNat]? =
        some d ∧ hamming_distance_orb32x8_popcountll ⟨0, 0, 0, 0⟩ d = 1) ∧
    (∀ j : Nat, j < sizeMinusOne 4 → ∀ d,
      [(⟨3, 0, 0, 0⟩ : Desc), ⟨1, 0, 0, 0⟩, ⟨2, 0, 0, 0⟩, ⟨0, 0, 0, 0⟩][j]? = some d →
      1 ≤ hamming_distance_orb32x8_popcountll ⟨0, 0, 0, 0⟩ d) ∧
    ∀ j : Nat, (j : Int) < 1 → ∀ d,
      [(⟨3, 0, 0, 0⟩ : Desc), ⟨1, 0, 0, 0⟩, ⟨2, 0, 0, 0⟩, ⟨0, 0, 0, 0⟩][j]? = some d →
      1 < hamming_distance_orb32x8_popcountll ⟨0, 0, 0, 0⟩ d :=
  bruteForceSearchORB_first_minimum ⟨0, 0, 0, 0⟩
    [⟨3, 0, 0, 0⟩, ⟨1, 0, 0, 0⟩, ⟨2, 0, 0, 0⟩, ⟨0, 0, 0, 0⟩] 4 1 1 (by decide) (by decide)

/-- C10 (counterexample): on an array of `2^31 + 3` descriptors whose first
minimum among the scanned elements is at index `2^31 + 1`, the result index is
`-(2^31 - 1)`, not an index in `[0, size-2]`. -/
theorem bruteForceSearchORB_large_index_is_negative :
    (List.replicate 2147483649 (⟨3, 0, 0, 0⟩ : Desc) ++
      [(⟨1, 0, 0, 0⟩ : Desc), ⟨0, 0, 0, 0⟩]).length = 2147483651 ∧
    bruteForceSearchORB ⟨0, 0, 0, 0⟩
      (some (List.replicate 2147483649 ⟨3, 0, 0, 0⟩ ++ [⟨1, 0, 0, 0⟩, ⟨0, 0, 0, 0⟩]))
      2147483651 = .ok (1, -2147483647) := by
  refine ⟨by rw [List.length_append, List.length_replicate]; rfl, ?_⟩
  have h := bruteForceSearchORB_far_minimum ⟨0, 0, 0, 0⟩ ⟨3, 0, 0, 0⟩ ⟨1, 0, 0, 0⟩
    ⟨0, 0, 0, 0⟩ 2147483649 2147483651 (by decide) (by decide) (by decide) (by decide)
  have e1 : hamming_distance_orb32x8_popcountll ⟨0, 0, 0, 0⟩ ⟨1, 0, 0, 0⟩ = 1 := by decide
  have e2 : toInt32 2147483649 = -2147483647 := by decide
  rw [e1, e2] at h
  exact h

/-- C10 (amended): on an array of `size` descriptors, `1 ≤ size < 2^32`, the
result index is `-1` exactly when `size = 1`; then the returned distance is 257
whatever the query and the memory are.  For `size ≥ 2` the first comparison
replaces the initial running minimum (the loop continues from the distance to
element 0 and index 0), the returned distance lies in `[0, 256]` and is the
minimum over the scanned elements, attained at a scanned index `i ≤ size-2`
whose `int` conversion is the result index; so `0 ≤ result_index ≤ size-2`
whenever `size ≤ 2^31 + 1`. -/
theorem bruteForceSearchORB_sentinel (v : Desc) (mem : List Desc) (size : Nat)
    (hlen : mem.length = size) (h1 : 1 ≤ size) (h32 : size < 4294967296) :
    ∃ md ri, bruteForceSearchORB v (some mem) size = .ok (md, ri) ∧
      (ri = -1 ↔ size = 1) ∧
      (size = 1 → md = 257 ∧
        ∀ (q : Desc) (other : List Desc), bruteForceSearchORB q (some other) 1 = .ok (257, -1)) ∧
      (2 ≤ size →
        (∃ d0 rest, mem = d0 :: rest ∧
          hamming_distance_orb32x8_popcountll v d0 < 1 + 256 ∧
          bruteForceSearchORB v (some mem) size =
            scanLoop v (size - 2) 1 rest (hamming_distance_orb32x8_popcountll v d0) 0) ∧
        (∃ i d, i ≤ size - 2 ∧ mem[i]? = some d ∧
          hamming_distance_orb32x8_popcountll v d = md ∧ ri = toInt32 i ∧
          ∀ j, j ≤ size - 2 → ∀ d', mem[j]? = some d' →
            md ≤ hamming_distance_orb32x8_popcountll v d') ∧
        0 ≤ md ∧ md ≤ 256 ∧
        (size ≤ 2147483649 → 0 ≤ ri ∧ ri ≤ (size : Int) - 2)) := by
  obtain ⟨md, ri, heq, hle, hall, hcase⟩ := bruteForceSearchORB_spec v mem size hlen h1 h32
  have hfirst : 2 ≤ size → md ≤ 256 := by
    intro h2
    cases mem with
    | nil => simp at hlen; omega
    | cons d0 rest =>
      have := hall 0 (by omega) d0 (by simp)
      have := hamming_le v d0
      omega
  refine ⟨md, ri, heq, ?_, ?_, ?_⟩
  · rcases hcase with ⟨h, h'⟩ | ⟨_, k, hk, _, hri, _⟩
    · constructor
      · intro _
        by_contra hne
        have := hfirst (by omega)
        omega
      · intro _; exact h'
    · constructor
      · intro h
        exact absurd (hri ▸ h) (toInt32_ne_neg_one k (by omega))
      · intro h; omega
  · intro hs
    refine ⟨?_, fun q other => rfl⟩
    rcases hcase with ⟨h, _⟩ | ⟨_, k, hk, _, _, _⟩
    · exact h
    · omega
  · intro h2
    have hmd := hfirst h2
    refine ⟨?_, ?_⟩
    · cases mem with
      | nil => simp at hlen; omega
      | cons d0 rest =>
        have h0 := hamming_le v d0
        exact ⟨d0, rest, rfl, by omega,
          bruteForceSearchORB_first_iteration v d0 rest size h2 h32⟩
    · rcases hcase with ⟨h, _⟩ | ⟨_, k, hk, ⟨d, hdk, hdv⟩, hri, _⟩
      · omega
      · have hnn := hamming_nonneg v d
        refine ⟨⟨k, d, by omega, hdk, hdv, hri, ?_⟩, by omega, hmd, ?_⟩
        · intro j hj d' hd'
          exact hall j (by omega) d' hd'
        · intro hs
          rw [hri, toInt32_of_lt k (by omega)]
          omega

/-- C10 (witness): an array of one descriptor, which gives the sentinel
result, and an array of two descriptors. -/
theorem bruteForceSearchORB_sentinel_witness :
    (∃ md ri, bruteForceSearchORB ⟨0, 0, 0, 0⟩ (some [⟨3, 0, 0, 0⟩]) 1 = .ok (md, ri) ∧
      (ri = -1 ↔ 1 = 1) ∧
      (1 = 1 → md = 257 ∧
        ∀ (q : Desc) (other : List Desc), bruteForceSearchORB q (some other) 1 = .ok (257, -1)) ∧
      (2 ≤ 1 →
        (∃ d0 rest, [(⟨3, 0, 0, 0⟩ : Desc)] = d0 :: rest ∧
          hamming_distance_orb32x8_popcountll ⟨0, 0, 0, 0⟩ d0 < 1 + 256 ∧
          bruteForceSearchORB ⟨0, 0, 0, 0⟩ (some [⟨3, 0, 0, 0⟩]) 1 =
            scanLoop ⟨0, 0, 0, 0⟩ (1 - 2) 1 rest
              (hamming_distance_orb32x8_popcountll ⟨0, 0, 0, 0⟩ d0) 0) ∧
        (∃ i d, i ≤ 1 - 2 ∧ [(⟨3, 0, 0, 0⟩ : Desc)][i]? = some d ∧
          hamming_distance_orb32x8_popcountll ⟨0, 0, 0, 0⟩ d = md ∧ ri = toInt32 i ∧
          ∀ j, j ≤ 1 - 2 → ∀ d', [(⟨3, 0, 0, 0⟩ : Desc)][j]? = some d' →
            md ≤ hamming_distance_orb32x8_popcountll ⟨0, 0, 0, 0⟩ d') ∧
        0 ≤ md ∧ md ≤ 256 ∧
        (1 ≤ 2147483649 → 0 ≤ ri ∧ ri ≤ ((1 : Nat) : Int) - 2))) ∧
    (∃ md ri, bruteForceSearchORB ⟨0, 0, 0, 0⟩ (some [⟨3, 0, 0, 0⟩, ⟨0, 0, 0, 0⟩]) 2 =
        .ok (md, ri) ∧
      (ri = -1 ↔ 2 = 1) ∧
      (2 = 1 → md = 257 ∧
        ∀ (q : Desc) (other : List Desc), bruteForceSearchORB q (some other) 1 = .ok (257, -1)) ∧
      (2 ≤ 2 →
        (∃ d0 rest, [(⟨3, 0, 0, 0⟩ : Desc), ⟨0, 0, 0, 0⟩] = d0 :: rest ∧
          hamming_distance_orb32x8_popcountll ⟨0, 0, 0, 0⟩ d0 < 1 + 256 ∧
          bruteForceSearchORB ⟨0, 0, 0, 0⟩ (some [⟨3, 0, 0, 0⟩, ⟨0, 0, 0, 0⟩]) 2 =
            scanLoop ⟨0, 0, 0, 0⟩ (2 - 2) 1 rest
              (hamming_distance_orb32x8_popcountll ⟨0, 0, 0, 0⟩ d0) 0) ∧
        (∃ i d, i ≤ 2 - 2 ∧ [(⟨3, 0, 0, 0⟩ : Desc), ⟨0, 0, 0, 0⟩][i]? = some d ∧
          hamming_distance_orb32x8_popcountll ⟨0, 0, 0, 0⟩ d = md ∧ ri = toInt32 i ∧
          ∀ j, j ≤ 2 - 2 → ∀ d', [(⟨3, 0, 0, 0⟩ : Desc), ⟨0, 0, 0, 0⟩][j]? = some d' →
            md ≤ hamming_distance_orb32x8_popcountll ⟨0, 0, 0, 0⟩ d') ∧
        0 ≤ md ∧ md ≤ 256 ∧
        (2 ≤ 2147483649 → 0 ≤ ri ∧ ri ≤ ((2 : Nat) : Int) - 2))) :=
  ⟨bruteForceSearchORB_sentinel ⟨0, 0, 0, 0⟩ [⟨3, 0, 0, 0⟩] 1
      (by decide) (by decide) (by decide),
   bruteForceSearchORB_sentinel ⟨0, 0, 0, 0⟩ [⟨3, 0, 0, 0⟩, ⟨0, 0, 0, 0⟩] 2
      (by decide) (by decide) (by decide)⟩

/-- C4 (witness): two descriptors that differ in three bits. -/
theorem hamming_distance_metric_properties_witness :
    hamming_distance_orb32x8_popcountll ⟨5, 0, 0, 1⟩ ⟨4, 0, 2, 0⟩ =
      hamming_distance_orb32x8_popcountll ⟨4, 0, 2, 0⟩ ⟨5, 0, 0, 1⟩ ∧
    (hamming_distance_orb32x8_popcountll ⟨5, 0, 0, 1⟩ ⟨4, 0, 2, 0⟩ = 0 ↔
      (⟨5, 0, 0, 1⟩ : Desc) = ⟨4, 0, 2, 0⟩) ∧
    0 ≤ hamming_distance_orb32x8_popcountll ⟨5, 0, 0, 1⟩ ⟨4, 0, 2, 0⟩ ∧
    hamming_distance_orb32x8_popcountll ⟨5, 0, 0, 1⟩ ⟨4, 0, 2, 0⟩ ≤ 256 :=
  hamming_distance_metric_properties ⟨5, 0, 0, 1⟩ ⟨4, 0, 2, 0⟩ (by decide) (by decide)


theorem bitLengthAux_le (fuel : Nat) : ∀ (n k : Nat), n < 2 ^ k → bitLengthAux fuel n ≤ k := by
  induction fuel with
  | zero => intro n k _; exact Nat.zero_le _
  | succ fuel ih =>
    intro n k hn
    simp only [bitLengthAux]
    split
    · exact Nat.zero_le _
    · next hne =>
      cases k with
      | zero => simp at hn; exact absurd hn hne
      | succ k =>
        have h2 : n / 2 < 2 ^ k := by
          rw [Nat.pow_succ] at hn
          omega
        have := ih (n / 2) k h2
        omega

theorem lt_two_pow_bitLengthAux (fuel : Nat) :
    ∀ n : Nat, n ≤ fuel → n < 2 ^ bitLengthAux fuel n := by
  induction fuel with
  | zero => intro n hn; simp [bitLengthAux]; omega
  | succ fuel ih =>
    intro n hn
    simp only [bitLengthAux]
    split
    · next h0 => subst h0; simp
    · next hne =>
      have := ih (n / 2) (by omega)
      rw [Nat.pow_succ]
      omega

theorem bitLength_le (n k : Nat) (hn : n < 2 ^ k) : bitLength n ≤ k :=
  bitLengthAux_le n n k hn

theorem lt_two_pow_bitLength (n : Nat) : n < 2 ^ bitLength n :=
  lt_two_pow_bitLengthAux n n (le_refl n)

theorem roundNearestEven_bounds (n d : Nat) (hd : 0 < d) :
    2 * (roundNearestEven n d * d) ≤ 2 * n + d ∧ 2 * n ≤ 2 * (roundNearestEven n d * d) + d := by
  have hn : d * (n / d) + n % d = n := Nat.div_add_mod n d
  have hr : n % d < d := Nat.mod_lt n hd
  have hq : (n / d + 1) * d = d * (n / d) + d := by ring
  have hq0 : n / d * d = d * (n / d) := Nat.mul_comm _ _
  unfold roundNearestEven
  split_ifs
  · rw [hq0]; omega
  · rw [hq]; omega
  · rw [hq0]; omega
  · rw [hq]; omega

theorem roundHalfAway_roundNearestEven (a c s : Nat) (hc : 0 < c) (hcs : c < 2 ^ s) :
    (2 * roundNearestEven (a * 2 ^ s) c + 2 ^ s) / (2 * 2 ^ s) = (2 * a + c) / (2 * c) := by
  obtain ⟨hm1, hm2⟩ := roundNearestEven_bounds (a * 2 ^ s) c hc
  generalize roundNearestEven (a * 2 ^ s) c = m at hm1 hm2
  have hs : 1 ≤ s := by
    rcases Nat.eq_zero_or_pos s with h | h
    · subst h; simp at hcs; omega
    · exact h
  obtain ⟨t, rfl⟩ : ∃ t, s = t + 1 := ⟨s - 1, by omega⟩
  rw [Nat.pow_succ] at hm1 hm2 hcs ⊢
  generalize 2 ^ t = P at hm1 hm2 hcs ⊢
  have hk1 : 2 * c * ((2 * a + c) / (2 * c)) ≤ 2 * a + c := Nat.mul_div_le _ _
  have hk2 : 2 * a + c < 2 * c * ((2 * a + c) / (2 * c) + 1) :=
    Nat.lt_mul_div_succ _ (by omega)
  generalize (2 * a + c) / (2 * c) = k at hk1 hk2 ⊢
  have hP : 0 < P := by omega
  apply Nat.div_eq_of_lt_le
  · by_contra hcon
    have he : k * (2 * (P * 2)) = 2 * (2 * (k * P)) := by ring
    have h1 : m + P + 1 ≤ 2 * (k * P) := by omega
    nlinarith [Nat.mul_le_mul_left (2 * P) hk1, Nat.mul_le_mul_left c h1]
  · by_contra hcon
    have h1 : (k + 1) * (2 * (P * 2)) ≤ 2 * m + P * 2 := by omega
    nlinarith [Nat.mul_le_mul_left (2 * P) hk2, Nat.mul_le_mul_left c h1]


theorem intToFloat_exact (n : Nat) (hn : n < 2 ^ 24) : intToFloat n = n := by
  unfold intToFloat
  rw [if_pos (bitLength_le n 24 hn)]

theorem roundHalfAway_floatDiv (a c : Nat) (ha : a < 2 ^ 23) (hc : 0 < c) :
    roundHalfAway (floatDiv a c).1 (floatDiv a c).2 = (2 * a + c) / (2 * c) := by
  have hla : bitLength a ≤ 23 := bitLength_le a 23 ha
  have hlc : c < 2 ^ bitLength c := lt_two_pow_bitLength c
  obtain ⟨s, hs, hdef⟩ : ∃ s : Int, (bitLength c : Int) ≤ s ∧
      floatDiv a c = (roundNearestEven (a * 2 ^ s.toNat) c, s) := by
    unfold floatDiv
    simp only
    split_ifs with h1 h2 h2
    · exact ⟨_, by omega, rfl⟩
    · omega
    · exact ⟨_, by omega, rfl⟩
    · omega
  rw [hdef]
  simp only
  unfold roundHalfAway
  rw [if_pos (by omega)]
  apply roundHalfAway_roundNearestEven a c s.toNat hc
  calc c < 2 ^ bitLength c := hlc
    _ ≤ 2 ^ s.toNat := Nat.pow_le_pow_right (by decide) (by omega)

theorem roundedFloatQuotient_exact (a c : Nat) (ha : a < 2 ^ 23) (hc : 0 < c)
    (hc24 : c < 2 ^ 24) :
    roundedFloatQuotient (a : Int) (c : Int) = .ok (((2 * a + c) / (2 * c) : Nat) : Int) := by
  unfold roundedFloatQuotient
  have hc0 : ¬ ((c : Int) = 0) := by omega
  rw [if_neg hc0]
  by_cases ha0 : a = 0
  · subst ha0
    have : (2 * 0 + c) / (2 * c) = 0 := Nat.div_eq_of_lt (by omega)
    rw [this]
    simp
  · have ha0' : ¬ ((a : Int) = 0) := by omega
    rw [if_neg ha0']
    simp only [Int.natAbs_ofNat]
    rw [intToFloat_exact a (by omega), intToFloat_exact c hc24, roundHalfAway_floatDiv a c ha hc]
    have hsa : (a : Int).sign = 1 := Int.sign_eq_one_of_pos (by omega)
    have hsc : (c : Int).sign = 1 := Int.sign_eq_one_of_pos (by omega)
    rw [hsa, hsc]
    have hb : (2 * a + c) / (2 * c) ≤ 2 * a + c := Nat.div_le_self _ _
    generalize (2 * a + c) / (2 * c) = k at hb ⊢
    unfold checkedInt inIntRange
    rw [if_pos (by omega)]
    simp

theorem timesOneAndAHalf_exact (m : Nat) (hm : m < 2 ^ 22) :
    timesOneAndAHalf (m : Int) = .ok ((3 * m / 2 : Nat) : Int) := by
  unfold timesOneAndAHalf checkedInt inIntRange
  rw [if_pos (by omega)]
  rw [if_pos (by omega)]
  congr 1

/-- Result of `adjustedGridWrapper` in the range where the single-precision
quotients are exact. -/
theorem adjustedGridWrapper_exact (m g : Nat) (it : Int) (detadj : DetectorAdjuster)
    (hm : m < 2 ^ 22) (hg0 : 0 < g) (hg : g < 2 ^ 12) :
    adjustedGridWrapper ⟨(m : Int), (g : Int), it⟩ detadj =
      .ok (.grid
        (.adjusted detadj (((2 * m + g * g) / (2 * (g * g)) : Nat) : Int)
          (((2 * (3 * m / 2) + g * g) / (2 * (g * g)) : Nat) : Int) it)
        ((3 * m / 2 : Nat) : Int) (g : Int) (g : Int)) := by
  have hgg : g * g < 2 ^ 24 := by
    have h4095 : g ≤ 4095 := by omega
    have : g * g ≤ 4095 * 4095 := Nat.mul_le_mul h4095 h4095
    omega
  have hgg0 : 0 < g * g := Nat.mul_pos hg0 hg0
  have h1 := timesOneAndAHalf_exact m hm
  have h2 : checkedInt ((g : Int) * (g : Int)) = .ok ((g * g : Nat) : Int) := by
    unfold checkedInt inIntRange
    rw [if_pos (by push_cast at hgg ⊢; constructor <;> nlinarith)]
    simp
  have h3 := roundedFloatQuotient_exact m (g * g) (by omega) hgg0 hgg
  have h4 := roundedFloatQuotient_exact (3 * m / 2) (g * g) (by omega) hgg0 hgg
  unfold adjustedGridWrapper
  simp only [h1, h2, h3, h4, bind, Except.bind, pure, Except.pure, adjusterWrapper]

theorem round_natCast_div (a c : Nat) (hc : 0 < c) :
    round ((a : ℚ) / (c : ℚ)) = (((2 * a + c) / (2 * c) : Nat) : Int) := by
  rw [round_eq]
  have hc' : (c : ℚ) ≠ 0 := by exact_mod_cast hc.ne'
  have h : (a : ℚ) / (c : ℚ) + 1 / 2 = (((2 * a + c : Nat) : Int) : ℚ) / ((2 * c : Nat) : ℚ) := by
    push_cast
    field_simp
    ring
  rw [h, Rat.floor_intCast_div_natCast]
  norm_cast

theorem floor_three_halves (m : Nat) : ⌊(3 / 2 : ℚ) * (m : ℚ)⌋ = ((3 * m / 2 : Nat) : Int) := by
  have h : (3 / 2 : ℚ) * (m : ℚ) = (((3 * m : Nat) : Int) : ℚ) / ((2 : Nat) : ℚ) := by
    push_cast
    ring
  rw [h, Rat.floor_intCast_div_natCast]
  norm_cast


/-! ## Theorems: the factories -/

theorem adjustedGridWrapper_kind (p : ParameterServer) (detadj : DetectorAdjuster)
    (pipe : Pipeline) (h : adjustedGridWrapper p detadj = .ok pipe) :
    pipe.kind = .gridOfAdjusters := by
  unfold adjustedGridWrapper at h
  simp only [bind, Except.bind, pure, Except.pure, adjusterWrapper] at h
  split at h
  · exact absurd h (by simp)
  · split at h
    · exact absurd h (by simp)
    · split at h
      · exact absurd h (by simp)
      · split at h
        · exact absurd h (by simp)
        · simp only [Except.ok.injEq] at h
          subst h
          rfl

theorem createDetector_wrap_kind (p : ParameterServer) (detAdj : DetectorAdjuster)
    (pipe : Pipeline) (h : createDetector_wrap p (some detAdj) = .ok pipe) :
    (p.adjuster_max_iterations ≤ 0 → pipe = .plain detAdj) ∧
    (p.adjuster_max_iterations > 0 → p.detector_grid_resolution ≤ 1 →
      pipe.kind = .adjusterWrapped) ∧
    (p.adjuster_max_iterations > 0 → p.detector_grid_resolution > 1 →
      pipe.kind = .gridOfAdjusters) := by
  unfold createDetector_wrap at h
  simp only [Bool.and_eq_true, decide_eq_true_eq, bind, Except.bind, pure, Except.pure,
    adjusterWrapper] at h
  refine ⟨?_, ?_, ?_⟩
  · intro hit
    rw [if_neg (by omega), if_neg (by omega)] at h
    simp only [Except.ok.injEq] at h
    exact h.symm
  · intro hit hgr
    rw [if_neg (by omega), if_pos hit] at h
    split at h
    · exact absurd h (by simp)
    · simp only [Except.ok.injEq] at h
      subst h
      rfl
  · intro hit hgr
    rw [if_pos ⟨hit, hgr⟩] at h
    exact adjustedGridWrapper_kind p detAdj pipe h

theorem createDetector_wrap_plain (p : ParameterServer) (detAdj : DetectorAdjuster)
    (hit : p.adjuster_max_iterations ≤ 0) :
    createDetector_wrap p (some detAdj) = .ok (.plain detAdj) := by
  unfold createDetector_wrap
  simp only [Bool.and_eq_true, decide_eq_true_eq, pure, Except.pure]
  rw [if_neg (by omega), if_neg (by omega)]

theorem createDetector_wrap_ok (p : ParameterServer) (detAdj : DetectorAdjuster)
    (hp : p.inExactRange) : ∃ pipe, createDetector_wrap p (some detAdj) = .ok pipe := by
  obtain ⟨hM, hMb, hg, hgb⟩ := hp
  obtain ⟨M, g, it⟩ := p
  simp only at hM hMb hg hgb
  lift M to ℕ using hM.le
  lift g to ℕ using (by omega : (0 : Int) ≤ g)
  have hM' : M < 2 ^ 22 := by exact_mod_cast hMb
  have hg' : g < 2 ^ 12 := by exact_mod_cast hgb
  unfold createDetector_wrap
  simp only [Bool.and_eq_true, decide_eq_true_eq, bind, Except.bind, pure, Except.pure]
  split_ifs
  · exact ⟨_, adjustedGridWrapper_exact M g it detAdj hM' (by omega) hg'⟩
  · rw [timesOneAndAHalf_exact M hM']
    exact ⟨_, rfl⟩
  · exact ⟨_, rfl⟩

theorem createDetector_unknown (p : ParameterServer) (detectorName : String)
    (h : detectorName ∉ ["SIFTGPU", "FAST", "SURF", "SURF128", "SIFT", "ORB"]) :
    createDetector p detectorName = createDetector p "SURF" := by
  simp only [List.mem_cons, List.mem_singleton, not_or, List.not_mem_nil,
    or_false] at h
  obtain ⟨h1, h2, h3, h4, h5, h6⟩ := h
  rw [createDetector]
  simp [h1, h2, h3, h4, h5, h6]

theorem createDetector_SURF (p : ParameterServer) :
    createDetector p "SURF" = createDetector_wrap p (some ⟨"SURF", [⟨200, 0⟩]⟩) := by
  rw [createDetector]
  simp

theorem createDetector_supported (p : ParameterServer) (detectorName : String)
    (h : detectorName ∈ ["FAST", "SURF", "SURF128", "SIFT", "ORB"]) :
    ∃ detAdj, createDetector p detectorName = createDetector_wrap p (some detAdj) := by
  simp only [List.mem_cons, List.mem_singleton, List.not_mem_nil, or_false] at h
  rcases h with rfl | rfl | rfl | rfl | rfl
  · exact ⟨⟨"FAST", [⟨20, 0⟩]⟩, by rw [createDetector]; simp⟩
  · exact ⟨⟨"SURF", [⟨200, 0⟩]⟩, by rw [createDetector]; simp⟩
  · exact ⟨⟨"SURF", [⟨200, 0⟩]⟩, by rw [createDetector]; simp⟩
  · exact ⟨⟨"SIFT", [⟨4, 2⟩, ⟨1, 4⟩]⟩, by rw [createDetector]; simp⟩
  · exact ⟨⟨"AORB", [⟨20, 0⟩]⟩, by rw [createDetector]; simp⟩

theorem createDetector_SIFTGPU (p : ParameterServer) :
    createDetector p "SIFTGPU" = .ok (.plain ⟨"SIFT", [⟨4, 2⟩, ⟨1, 4⟩]⟩) := by
  rw [createDetector]
  simp

theorem createDescriptorExtractor_SURF :
    createDescriptorExtractor "SURF" = .ok (.Surf false) := by
  rw [createDescriptorExtractor]
  simp [assertNotEmpty]

theorem createDescriptorExtractor_unknown (descriptorType : String)
    (h : descriptorType ∉
      ["SIFT", "BRIEF", "BRISK", "FREAK", "SURF", "SURF128", "ORB", "SIFTGPU"]) :
    createDescriptorExtractor descriptorType = createDescriptorExtractor "SURF" := by
  simp only [List.mem_cons, List.mem_singleton, not_or, List.not_mem_nil,
    or_false] at h
  obtain ⟨h1, h2, h3, h4, h5, h6, h7, h8⟩ := h
  rw [createDescriptorExtractor]
  simp only [h1, h2, h3, h4, h5, h6, h7, h8, if_false, dite_false]
  rw [createDescriptorExtractor_SURF]
  rfl


/-- C6: a detector name outside the recognised set yields exactly what
`createDetector "SURF"` yields (which is the non-recursive SURF branch), and a
descriptor type outside the recognised set yields the SURF extractor; the
extractor factory never fails and the detector factory returns a pipeline
whenever the SURF call does. -/
theorem factories_fall_back_to_SURF (params : ParameterServer)
    (detectorName descriptorType : String)
    (hdet : detectorName ∉ ["SIFTGPU", "FAST", "SURF", "SURF128", "SIFT", "ORB"])
    (hext : descriptorType ∉
      ["SIFT", "BRIEF", "BRISK", "FREAK", "SURF", "SURF128", "ORB", "SIFTGPU"]) :
    createDetector params detectorName = createDetector params "SURF" ∧
    createDetector params "SURF" =
      createDetector_wrap params (some ⟨"SURF", [⟨200, 0⟩]⟩) ∧
    (params.inExactRange ∨ params.adjuster_max_iterations ≤ 0 →
      ∃ pipe, createDetector params detectorName = .ok pipe) ∧
    createDescriptorExtractor descriptorType = createDescriptorExtractor "SURF" ∧
    createDescriptorExtractor descriptorType = .ok (.Surf false) := by
  have h1 := createDetector_unknown params detectorName hdet
  have h2 := createDetector_SURF params
  have h3 := createDescriptorExtractor_unknown descriptorType hext
  refine ⟨h1, h2, ?_, h3, by rw [h3, createDescriptorExtractor_SURF]⟩
  intro hp
  rw [h1, h2]
  rcases hp with hp | hp
  · exact createDetector_wrap_ok params _ hp
  · exact ⟨_, createDetector_wrap_plain params _ hp⟩

/-- C6 (witness): the names `"HARRIS"` and `"KAZE"` under the configuration
`max_keypoints = 400`, `detector_grid_resolution = 2`,
`adjuster_max_iterations = 5`. -/
theorem factories_fall_back_to_SURF_witness :
    createDetector ⟨400, 2, 5⟩ "HARRIS" = createDetector ⟨400, 2, 5⟩ "SURF" ∧
    createDetector ⟨400, 2, 5⟩ "SURF" =
      createDetector_wrap ⟨400, 2, 5⟩ (some ⟨"SURF", [⟨200, 0⟩]⟩) ∧
    ((⟨400, 2, 5⟩ : ParameterServer).inExactRange ∨
      (⟨400, 2, 5⟩ : ParameterServer).adjuster_max_iterations ≤ 0 →
      ∃ pipe, createDetector ⟨400, 2, 5⟩ "HARRIS" = .ok pipe) ∧
    createDescriptorExtractor "KAZE" = createDescriptorExtractor "SURF" ∧
    createDescriptorExtractor "KAZE" = .ok (.Surf false) :=
  factories_fall_back_to_SURF ⟨400, 2, 5⟩ "HARRIS" "KAZE" (by decide) (by decide)

/-- C7 (counterexample): with `max_keypoints = 9` on a 2 x 2 grid the band
handed to the adjuster is `[2, 3]`, whereas the ceilings of `9 / 4` and
`13.5 / 4` are 3 and 4.  And with `max_keypoints = 2^24 + 1` on a 1 x 1 grid
the single-precision quotients give the band `[2^24, 25165824]`, below both
the budget and `⌊1.5 * (2^24 + 1)⌋ = 25165825`. -/
theorem gridBand_rounds_to_nearest_at_nine :
    adjustedGridWrapper ⟨9, 2, 5⟩ ⟨"SURF", [⟨200, 0⟩]⟩ =
      .ok (.grid (.adjusted ⟨"SURF", [⟨200, 0⟩]⟩ 2 3 5) 13 2 2) ∧
    ⌈(9 : ℚ) / (2 * 2)⌉ = 3 ∧ ⌈(3 / 2 : ℚ) * 9 / (2 * 2)⌉ = 4 ∧
    adjustedGridWrapper ⟨16777217, 1, 5⟩ ⟨"SURF", [⟨200, 0⟩]⟩ =
      .ok (.grid (.adjusted ⟨"SURF", [⟨200, 0⟩]⟩ 16777216 25165824 5) 25165825 1 1) := by
  refine ⟨by decide, ?_, ?_, by decide⟩
  · rw [Int.ceil_eq_iff]; norm_num
  · rw [Int.ceil_eq_iff]; norm_num

/-- C7 (amended): for a budget `0 < M < 2^22` and a grid resolution
`1 ≤ g < 2^12` the band handed to the adjuster is
`[round (M / cells), round (⌊1.5 * M⌋ / cells)]` with `cells = g * g`, in exact
rational arithmetic and `round` the nearest integer (halves upwards); for
`M = 400`, `g = 2` it is `[100, 150]`. -/
theorem adjustedGridWrapper_band (p : ParameterServer) (detadj : DetectorAdjuster)
    (hp : p.inExactRange) :
    (∃ maxTotal, adjustedGridWrapper p detadj =
      .ok (.grid
        (.adjusted detadj
          (round ((p.max_keypoints : ℚ) /
            ((p.detector_grid_resolution : ℚ) * (p.detector_grid_resolution : ℚ))))
          (round (((⌊(3 / 2 : ℚ) * (p.max_keypoints : ℚ)⌋ : Int) : ℚ) /
            ((p.detector_grid_resolution : ℚ) * (p.detector_grid_resolution : ℚ))))
          p.adjuster_max_iterations)
        maxTotal p.detector_grid_resolution p.detector_grid_resolution)) ∧
    adjustedGridWrapper ⟨400, 2, p.adjuster_max_iterations⟩ detadj =
      .ok (.grid (.adjusted detadj 100 150 p.adjuster_max_iterations) 600 2 2) := by
  obtain ⟨hM, hMb, hg, hgb⟩ := hp
  obtain ⟨M, g, it⟩ := p
  simp only at hM hMb hg hgb
  lift M to ℕ using hM.le
  lift g to ℕ using (by omega : (0 : Int) ≤ g)
  have hM' : M < 2 ^ 22 := by exact_mod_cast hMb
  have hg' : g < 2 ^ 12 := by exact_mod_cast hgb
  have hg0 : 0 < g := by omega
  constructor
  · refine ⟨((3 * M / 2 : Nat) : Int), ?_⟩
    rw [adjustedGridWrapper_exact M g it detadj hM' hg0 hg']
    simp only [Int.cast_natCast]
    have e1 : ((M : ℚ) / ((g : ℚ) * (g : ℚ))) = ((M : ℚ) / ((g * g : Nat) : ℚ)) := by
      push_cast; rfl
    rw [floor_three_halves, e1, round_natCast_div M (g * g) (Nat.mul_pos hg0 hg0)]
    have e2 : ((((3 * M / 2 : Nat) : Int) : ℚ) / ((g : ℚ) * (g : ℚ))) =
        (((3 * M / 2 : Nat) : ℚ) / ((g * g : Nat) : ℚ)) := by
      push_cast; rfl
    rw [e2, round_natCast_div (3 * M / 2) (g * g) (Nat.mul_pos hg0 hg0)]
  · exact adjustedGridWrapper_exact 400 2 it detadj (by decide) (by decide) (by decide)

/-- C7 (witness): the configuration `max_keypoints = 9`,
`detector_grid_resolution = 2`, `adjuster_max_iterations = 5`. -/
theorem adjustedGridWrapper_band_witness :
    (∃ maxTotal, adjustedGridWrapper ⟨9, 2, 5⟩ ⟨"SURF", [⟨200, 0⟩]⟩ =
      .ok (.grid
        (.adjusted ⟨"SURF", [⟨200, 0⟩]⟩
          (round ((((9 : Int)) : ℚ) / ((((2 : Int)) : ℚ) * (((2 : Int)) : ℚ))))
          (round (((⌊(3 / 2 : ℚ) * (((9 : Int)) : ℚ)⌋ : Int) : ℚ) /
            ((((2 : Int)) : ℚ) * (((2 : Int)) : ℚ))))
          5)
        maxTotal 2 2)) ∧
    adjustedGridWrapper ⟨400, 2, 5⟩ ⟨"SURF", [⟨200, 0⟩]⟩ =
      .ok (.grid (.adjusted ⟨"SURF", [⟨200, 0⟩]⟩ 100 150 5) 600 2 2) :=
  adjustedGridWrapper_band ⟨9, 2, 5⟩ ⟨"SURF", [⟨200, 0⟩]⟩ (by decide)

/-- C8 (counterexample): with gridding enabled and the adjuster disabled,
`createDetector "SURF"` returns the bare detector, not a grid of detectors; and
`createDetector "SIFTGPU"` returns a bare detector also when the adjuster is
enabled. -/
theorem createDetector_grid_only_is_plain :
    createDetector ⟨400, 2, 0⟩ "SURF" = .ok (.plain ⟨"SURF", [⟨200, 0⟩]⟩) ∧
    (Pipeline.plain ⟨"SURF", [⟨200, 0⟩]⟩).kind ≠ .gridOfPlainDetectors ∧
    createDetector ⟨400, 1, 5⟩ "SIFTGPU" = .ok (.plain ⟨"SIFT", [⟨4, 2⟩, ⟨1, 4⟩]⟩) ∧
    (Pipeline.plain ⟨"SIFT", [⟨4, 2⟩, ⟨1, 4⟩]⟩).kind ≠ .adjusterWrapped := by
  refine ⟨?_, by decide, createDetector_SIFTGPU _, by decide⟩
  rw [createDetector_SURF]
  decide

/-- C8 (amended): for each of the names FAST, SURF, SURF128, SIFT and ORB the
returned pipeline is a plain detector when the adjuster is disabled (whether or
not gridding is enabled), an adjuster-wrapped detector when only the adjuster
is enabled, and a grid of adjusters when both are enabled; SIFTGPU always
yields a plain detector.  A grid resolution of 1 yields no grid and an
iteration ceiling of 0 yields no adjuster.  A pipeline is returned for every
configuration in the exact range and whenever the adjuster is disabled. -/
theorem createDetector_pipeline_selection (p : ParameterServer) (detectorName : String)
    (hname : detectorName ∈ ["FAST", "SURF", "SURF128", "SIFT", "ORB"]) :
    (∀ pipe, createDetector p detectorName = .ok pipe →
      (p.adjuster_max_iterations ≤ 0 → pipe.kind = .plainDetector) ∧
      (p.adjuster_max_iterations > 0 → p.detector_grid_resolution ≤ 1 →
        pipe.kind = .adjusterWrapped) ∧
      (p.adjuster_max_iterations > 0 → p.detector_grid_resolution > 1 →
        pipe.kind = .gridOfAdjusters) ∧
      (p.detector_grid_resolution = 1 →
        pipe.kind = .plainDetector ∨ pipe.kind = .adjusterWrapped) ∧
      (p.adjuster_max_iterations = 0 → pipe.kind = .plainDetector)) ∧
    (p.inExactRange ∨ p.adjuster_max_iterations ≤ 0 →
      ∃ pipe, createDetector p detectorName = .ok pipe) ∧
    (∃ detAdj, createDetector p "SIFTGPU" = .ok (.plain detAdj)) := by
  obtain ⟨detAdj, hcd⟩ := createDetector_supported p detectorName hname
  refine ⟨?_, ?_, ⟨_, createDetector_SIFTGPU p⟩⟩
  · intro pipe hpipe
    rw [hcd] at hpipe
    obtain ⟨k1, k2, k3⟩ := createDetector_wrap_kind p detAdj pipe hpipe
    have k1' : p.adjuster_max_iterations ≤ 0 → pipe.kind = .plainDetector := by
      intro h; rw [k1 h]; rfl
    refine ⟨k1', k2, k3, ?_, ?_⟩
    · intro hg
      by_cases hit : p.adjuster_max_iterations > 0
      · exact Or.inr (k2 hit (by omega))
      · exact Or.inl (k1' (by omega))
    · intro hit
      exact k1' (by omega)
  · intro hp
    rw [hcd]
    rcases hp with hp | hp
    · exact createDetector_wrap_ok p _ hp
    · exact ⟨_, createDetector_wrap_plain p _ hp⟩

/-- C8 (witness): the name `"ORB"` under the configuration
`max_keypoints = 400`, `detector_grid_resolution = 2`,
`adjuster_max_iterations = 5`. -/
theorem createDetector_pipeline_selection_witness :
    (∀ pipe, createDetector ⟨400, 2, 5⟩ "ORB" = .ok pipe →
      ((5 : Int) ≤ 0 → pipe.kind = .plainDetector) ∧
      ((5 : Int) > 0 → (2 : Int) ≤ 1 → pipe.kind = .adjusterWrapped) ∧
      ((5 : Int) > 0 → (2 : Int) > 1 → pipe.kind = .gridOfAdjusters) ∧
      ((2 : Int) = 1 → pipe.kind = .plainDetector ∨ pipe.kind = .adjusterWrapped) ∧
      ((5 : Int) = 0 → pipe.kind = .plainDetector)) ∧
    ((⟨400, 2, 5⟩ : ParameterServer).inExactRange ∨ (5 : Int) ≤ 0 →
      ∃ pipe, createDetector ⟨400, 2, 5⟩ "ORB" = .ok pipe) ∧
    (∃ detAdj, createDetector ⟨400, 2, 5⟩ "SIFTGPU" = .ok (.plain detAdj)) :=
  createDetector_pipeline_selection ⟨400, 2, 5⟩ "ORB" (by decide)

/-! ## Theorems: the grid adapter outside the exact range -/

theorem two_pow_bitLengthAux_le (fuel : Nat) :
    ∀ n : Nat, 0 < n → n ≤ fuel → 2 ^ bitLengthAux fuel n ≤ 2 * n := by
  induction fuel with
  | zero => intro n h0 hn; omega
  | succ fuel ih =>
    intro n h0 hn
    simp only [bitLengthAux]
    rw [if_neg (by omega)]
    rw [Nat.pow_succ]
    by_cases h1 : n / 2 = 0
    · have hz : bitLengthAux fuel (n / 2) = 0 := by
        rw [h1]
        cases fuel <;> simp [bitLengthAux]
      rw [hz]
      omega
    · have := ih (n / 2) (by omega) (by omega)
      omega

theorem two_pow_bitLength_le (n : Nat) (hn : 0 < n) : 2 ^ bitLength n ≤ 2 * n :=
  two_pow_bitLengthAux_le n n hn (le_refl n)

theorem intToFloat_le_two_pow (n L : Nat) (hn : n < 2 ^ L) : intToFloat n ≤ 2 ^ L := by
  unfold intToFloat
  split
  · omega
  · next hgt =>
    have hl : bitLength n ≤ L := bitLength_le n L hn
    have hlt : n < 2 ^ bitLength n := lt_two_pow_bitLength n
    have hsplit : 2 ^ bitLength n = 2 ^ (bitLength n - 24) * 16777216 := by
      rw [show (16777216 : Nat) = 2 ^ 24 by norm_num, ← Nat.pow_add]
      congr 1
      omega
    have hD : 0 < 2 ^ (bitLength n - 24) := Nat.two_pow_pos _
    obtain ⟨hr, _⟩ := roundNearestEven_bounds n (2 ^ (bitLength n - 24)) hD
    have hmono : 2 ^ bitLength n ≤ 2 ^ L := Nat.pow_le_pow_right (by decide) hl
    rw [hsplit] at hlt hmono
    generalize 2 ^ (bitLength n - 24) = D at hD hr hlt hmono ⊢
    generalize roundNearestEven n D = r at hr ⊢
    have hr' : r ≤ 16777216 := by
      by_contra hcon
      have : 16777217 * D ≤ r * D := Nat.mul_le_mul_right D (by omega)
      omega
    have : r * D ≤ 16777216 * D := Nat.mul_le_mul_right D hr'
    omega

theorem four_le_intToFloat (n : Nat) (hn : 4 ≤ n) : 4 ≤ intToFloat n := by
  unfold intToFloat
  split
  · exact hn
  · next hgt =>
    have h2 := two_pow_bitLength_le n (by omega)
    have hsplit : 2 ^ bitLength n = 2 ^ (bitLength n - 24) * 16777216 := by
      rw [show (16777216 : Nat) = 2 ^ 24 by norm_num, ← Nat.pow_add]
      congr 1
      omega
    have hD : 0 < 2 ^ (bitLength n - 24) := Nat.two_pow_pos _
    obtain ⟨_, hr⟩ := roundNearestEven_bounds n (2 ^ (bitLength n - 24)) hD
    rw [hsplit] at h2
    generalize 2 ^ (bitLength n - 24) = D at hD hr h2 ⊢
    generalize roundNearestEven n D * D = rD at hr ⊢
    omega

/-- The rounded single-precision quotient is at most about half the dividend
when the divisor is at least 4. -/
theorem roundHalfAway_floatDiv_le (a c : Nat) (hc : 4 ≤ c) :
    2 * roundHalfAway (floatDiv a c).1 (floatDiv a c).2 ≤ a + 2 := by
  unfold floatDiv
  simp only
  generalize (23 - ((bitLength a : Int) - (bitLength c : Int)) +
    (if a * 2 ^ bitLength c < c * 2 ^ bitLength a then 1 else 0) : Int) = s
  by_cases hs : 0 ≤ s
  · rw [if_pos hs]
    simp only
    unfold roundHalfAway
    rw [if_pos hs]
    have hP : 0 < 2 ^ s.toNat := Nat.two_pow_pos _
    obtain ⟨hm, _⟩ := roundNearestEven_bounds (a * 2 ^ s.toNat) c (by omega)
    generalize 2 ^ s.toNat = P at hP hm ⊢
    generalize roundNearestEven (a * P) c = m at hm ⊢
    have hdiv : (2 * m + P) / (2 * P) * (2 * P) ≤ 2 * m + P := Nat.div_mul_le_self _ _
    generalize (2 * m + P) / (2 * P) = r at hdiv ⊢
    by_contra hcon
    have hr : a + 3 ≤ 2 * r := by omega
    rcases Nat.eq_zero_or_pos m with h0 | hpos
    · subst h0
      nlinarith [Nat.mul_le_mul_right P hr]
    · obtain ⟨m', rfl⟩ : ∃ m', m = m' + 1 := ⟨m - 1, by omega⟩
      have h4 : (2 * m' + 1) * 4 ≤ (2 * m' + 1) * c := Nat.mul_le_mul_left _ hc
      nlinarith [Nat.mul_le_mul_right P hr]
  · rw [if_neg hs]
    simp only
    unfold roundHalfAway
    rw [if_neg hs]
    have hQ : 0 < 2 ^ (-s).toNat := Nat.two_pow_pos _
    obtain ⟨hm, _⟩ := roundNearestEven_bounds a (c * 2 ^ (-s).toNat) (by positivity)
    generalize 2 ^ (-s).toNat = Q at hQ hm ⊢
    generalize roundNearestEven a (c * Q) = m at hm ⊢
    rcases Nat.eq_zero_or_pos m with h0 | hpos
    · subst h0
      omega
    · obtain ⟨m', rfl⟩ : ∃ m', m = m' + 1 := ⟨m - 1, by omega⟩
      have h4 : (2 * m' + 1) * Q * 4 ≤ (2 * m' + 1) * Q * c := Nat.mul_le_mul_left _ hc
      nlinarith

theorem roundedFloatQuotient_ok (a c : Nat) (ha : a < 2 ^ 31) (hc4 : 4 ≤ c)
    (hc : c < 2 ^ 31) : ∃ r : Int, roundedFloatQuotient (a : Int) (c : Int) = .ok r := by
  unfold roundedFloatQuotient
  have hc0 : ¬ ((c : Int) = 0) := by omega
  rw [if_neg hc0]
  by_cases ha0 : (a : Int) = 0
  · rw [if_pos ha0]
    exact ⟨0, rfl⟩
  · rw [if_neg ha0]
    simp only [Int.natAbs_ofNat]
    have hA := intToFloat_le_two_pow a 31 ha
    have hC := four_le_intToFloat c hc4
    have hb := roundHalfAway_floatDiv_le (intToFloat a) (intToFloat c) hC
    generalize roundHalfAway (floatDiv (intToFloat a) (intToFloat c)).1
      (floatDiv (intToFloat a) (intToFloat c)).2 = r at hb ⊢
    have hsa : (a : Int).sign = 1 := Int.sign_eq_one_of_pos (by omega)
    have hsc : (c : Int).sign = 1 := Int.sign_eq_one_of_pos (by omega)
    rw [hsa, hsc]
    unfold checkedInt inIntRange
    rw [if_pos (by omega)]
    exact ⟨_, rfl⟩

theorem timesOneAndAHalf_ok (m : Nat) (hm : m ≤ 1431655765) :
    timesOneAndAHalf (m : Int) = .ok ((3 * m / 2 : Nat) : Int) := by
  unfold timesOneAndAHalf checkedInt inIntRange
  rw [if_pos (by omega)]
  rw [if_pos (by omega)]
  congr 1

/-- Result of `adjustedGridWrapper` whenever `1.5 * max_keypoints` and the
number of grid cells fit an `int` and the grid has more than one cell. -/
theorem adjustedGridWrapper_ok_of_int_range (m g : Nat) (it : Int) (detadj : DetectorAdjuster)
    (hm : m ≤ 1431655765) (hg2 : 2 ≤ g) (hg : g ≤ 46340) :
    ∃ gridmin gridmax, adjustedGridWrapper ⟨(m : Int), (g : Int), it⟩ detadj =
      .ok (.grid (.adjusted detadj gridmin gridmax it)
        ((3 * m / 2 : Nat) : Int) (g : Int) (g : Int)) := by
  have hgg : g * g ≤ 46340 * 46340 := Nat.mul_le_mul hg hg
  have hgg4 : 2 * 2 ≤ g * g := Nat.mul_le_mul hg2 hg2
  have h1 := timesOneAndAHalf_ok m hm
  have h2 : checkedInt ((g : Int) * (g : Int)) = .ok ((g * g : Nat) : Int) := by
    unfold checkedInt inIntRange
    rw [if_pos (by push_cast at hgg ⊢; constructor <;> nlinarith)]
    simp
  obtain ⟨gridmin, h3⟩ := roundedFloatQuotient_ok m (g * g) (by omega) (by omega) (by omega)
  obtain ⟨gridmax, h4⟩ :=
    roundedFloatQuotient_ok (3 * m / 2) (g * g) (by omega) (by omega) (by omega)
  refine ⟨gridmin, gridmax, ?_⟩
  unfold adjustedGridWrapper
  simp only [h1, h2, h3, h4, bind, Except.bind, pure, Except.pure, adjusterWrapper]

theorem mergeAndCap_single_length (maxTotalKeypoints x y : Int) (kps : List KeyPoint)
    (h : (kps.length : Int) ≤ maxTotalKeypoints) :
    (mergeAndCap maxTotalKeypoints [⟨x, y, kps⟩]).length = kps.length := by
  unfold mergeAndCap
  simp only [List.map_cons, List.map_nil, List.flatten_cons, List.flatten_nil,
    List.append_nil, List.length_map]
  rw [if_neg (by omega), List.length_map]

theorem mergeAndCap_length_le (maxTotalKeypoints : Int) (h0 : 0 ≤ maxTotalKeypoints)
    (cells : List CellOutput) :
    ((mergeAndCap maxTotalKeypoints cells).length : Int) ≤ maxTotalKeypoints := by
  unfold mergeAndCap
  simp only
  split
  · rw [List.length_take]
    omega
  · omega


/-- C9 (counterexample): with `max_keypoints = 400` on a 2 x 2 grid the grid
adapter is configured with the global maximum 600, not 400, and a merge step
that caps at the configured maximum lets 600 keypoints through.  With
`max_keypoints = 1431655766` the conversion of `1.5 * max_keypoints` to `int`
is undefined, and so is the product `gridRes * gridRes` for a resolution of
46341. -/
theorem adjustedGridWrapper_cap_is_not_max_keypoints :
    adjustedGridWrapper ⟨400, 2, 5⟩ ⟨"SURF", [⟨200, 0⟩]⟩ =
      .ok (.grid (.adjusted ⟨"SURF", [⟨200, 0⟩]⟩ 100 150 5) 600 2 2) ∧
    (600 : Int) ≠ (⟨400, 2, 5⟩ : ParameterServer).max_keypoints ∧
    (mergeAndCap 600 [⟨0, 0, List.replicate 600 ⟨0, 0, 0⟩⟩]).length = 600 ∧
    adjustedGridWrapper ⟨1431655766, 2, 5⟩ ⟨"SURF", [⟨200, 0⟩]⟩ =
      .error .UndefinedBehaviour ∧
    adjustedGridWrapper ⟨400, 46341, 5⟩ ⟨"SURF", [⟨200, 0⟩]⟩ =
      .error .UndefinedBehaviour := by
  refine ⟨by decide, by decide, ?_, by decide, by decide⟩
  have hfit : (((List.replicate 600 (⟨0, 0, 0⟩ : KeyPoint)).length : Nat) : Int) ≤ 600 := by
    rw [List.length_replicate]
    decide
  rw [mergeAndCap_single_length 600 0 0 _ hfit, List.length_replicate]

/-- C9 (amended): for a budget `M > 0` and a grid resolution `g > 1` such that
`1.5 * M` and `g * g` fit an `int` (`M ≤ 1431655765`, `g ≤ 46340`) the grid
adapter built by `adjustedGridWrapper` has a `g x g` grid and the global
maximum `⌊1.5 * M⌋`; a merge step that caps at this configured maximum never
outputs more than `⌊1.5 * M⌋` keypoints. -/
theorem adjustedGridWrapper_global_cap (p : ParameterServer) (detadj : DetectorAdjuster)
    (hM : 0 < p.max_keypoints) (hMb : p.max_keypoints ≤ 1431655765)
    (hg : 1 < p.detector_grid_resolution) (hgb : p.detector_grid_resolution ≤ 46340) :
    (∃ detector, adjustedGridWrapper p detadj =
      .ok (.grid detector ⌊(3 / 2 : ℚ) * (p.max_keypoints : ℚ)⌋
        p.detector_grid_resolution p.detector_grid_resolution)) ∧
    ∀ cells : List CellOutput,
      ((mergeAndCap ⌊(3 / 2 : ℚ) * (p.max_keypoints : ℚ)⌋ cells).length : Int) ≤
        ⌊(3 / 2 : ℚ) * (p.max_keypoints : ℚ)⌋ := by
  obtain ⟨M, g, it⟩ := p
  simp only at hM hMb hg hgb
  lift M to ℕ using hM.le
  lift g to ℕ using (by omega : (0 : Int) ≤ g)
  have hM' : M ≤ 1431655765 := by exact_mod_cast hMb
  have hg' : g ≤ 46340 := by exact_mod_cast hgb
  have hg2 : 2 ≤ g := by omega
  simp only [Int.cast_natCast]
  rw [floor_three_halves]
  constructor
  · obtain ⟨gridmin, gridmax, h⟩ := adjustedGridWrapper_ok_of_int_range M g it detadj hM' hg2 hg'
    exact ⟨_, h⟩
  · intro cells
    exact mergeAndCap_length_le _ (Int.natCast_nonneg _) cells

/-- C9 (witness): the configuration `max_keypoints = 400`,
`detector_grid_resolution = 2`, `adjuster_max_iterations = 5`. -/
theorem adjustedGridWrapper_global_cap_witness :
    (∃ detector, adjustedGridWrapper ⟨400, 2, 5⟩ ⟨"SURF", [⟨200, 0⟩]⟩ =
      .ok (.grid detector ⌊(3 / 2 : ℚ) * (((400 : Int)) : ℚ)⌋ 2 2)) ∧
    ∀ cells : List CellOutput,
      ((mergeAndCap ⌊(3 / 2 : ℚ) * (((400 : Int)) : ℚ)⌋ cells).length : Int) ≤
        ⌊(3 / 2 : ℚ) * (((400 : Int)) : ℚ)⌋ :=
  adjustedGridWrapper_global_cap ⟨400, 2, 5⟩ ⟨"SURF", [⟨200, 0⟩]⟩
    (by decide) (by decide) (by decide) (by decide)

end Features
